import Mathlib

/- Verification of the EnvMon4 environmental logger (src/EnvMon4.ino).

   The sketch's own logic (the loop() scheduler, the reading formatters,
   the EEPROM signature routines, and the setClock operator protocol) is
   embedded directly from the source.  The Time and Timezone libraries it
   links against are external dependencies whose code is not in src/, so
   the civil-calendar arithmetic and the UTC/local conversion are modelled
   from the spec (sections 3, 4.1 and the glossary); those definitions are
   marked "Modelled from the spec:".  Instants are seconds since the Unix
   epoch, exactly the sketch's unsigned time_t. -/

set_option maxHeartbeats 1000000
set_option maxRecDepth 100000

namespace EnvMon4

/- ================= Civil calendar ================= -/

/-- Modelled from the spec: Gregorian leap-year test used to interpret an
Instant (seconds since a fixed epoch, always UTC) as a calendar date. -/
def isLeap (y : Nat) : Bool := ((y % 4 == 0) && (y % 100 != 0)) || (y % 400 == 0)

/-- Number of days in calendar year y. -/
def daysInYear (y : Nat) : Nat := if isLeap y then 366 else 365

/-- Number of seconds in calendar year y. -/
def secsInYear (y : Nat) : Nat := 86400 * daysInYear y

/-- Seconds from the epoch to Jan 1 00:00:00 of year 1970 + n. -/
def yearStartAux : Nat → Nat
  | 0 => 0
  | n + 1 => yearStartAux n + secsInYear (1970 + n)

/-- Seconds from the epoch to Jan 1 00:00:00 UTC of year y (y at least 1970). -/
def yearStart (y : Nat) : Nat := yearStartAux (y - 1970)

/-- Fuel-driven search for the calendar year containing an instant; starting
at year y with s seconds remaining, subtract whole years until less than one
year remains.  Fuel bounds the iteration so the definition is structural. -/
def yearOfAux : Nat → Nat → Nat → Nat
  | 0, y, _ => y
  | fuel + 1, y, s => if s < secsInYear y then y else yearOfAux fuel (y + 1) (s - secsInYear y)

/-- Modelled from the spec: the calendar year of an Instant.  A year has at
least 31536000 seconds and (t + 31536000) / 31536000 = t / 31536000 + 1, so
the fuel is always sufficient. -/
def yearOf (t : Nat) : Nat := yearOfAux ((t + 31536000) / 31536000) 1970 t

/-- One extra February day in leap years. -/
def leapAdj (y : Nat) : Nat := if isLeap y then 1 else 0

/-- Days of year y that precede the first day of month m (1 = January). -/
def daysBeforeMonth (y : Nat) : Nat → Nat
  | 1 => 0
  | 2 => 31
  | 3 => 59 + leapAdj y
  | 4 => 90 + leapAdj y
  | 5 => 120 + leapAdj y
  | 6 => 151 + leapAdj y
  | 7 => 181 + leapAdj y
  | 8 => 212 + leapAdj y
  | 9 => 243 + leapAdj y
  | 10 => 273 + leapAdj y
  | 11 => 304 + leapAdj y
  | 12 => 334 + leapAdj y
  | _ => 0

/-- Length in days of month m of year y. -/
def monthLen (y m : Nat) : Nat :=
  if m = 2 then 28 + leapAdj y
  else if m = 4 ∨ m = 6 ∨ m = 9 ∨ m = 11 then 30 else 31

/-- Modelled from the spec: the Instant of a broken-down civil date/time
(year, month 1-12, day 1-31, hour, minute, second), i.e. the Time library's
makeTime with the year given as a calendar year. -/
def makeTime (y mo d hh mi ss : Nat) : Nat :=
  yearStart y + 86400 * (daysBeforeMonth y mo + (d - 1)) + 3600 * hh + 60 * mi + ss

/-- Second within the minute of an Instant. -/
def secondOf (t : Nat) : Nat := t % 60

/-- Minute within the hour of an Instant. -/
def minuteOf (t : Nat) : Nat := t / 60 % 60

/-- Hour within the day of an Instant. -/
def hourOf (t : Nat) : Nat := t / 3600 % 24

/-- Walk the months of year y consuming a zero-based day-of-year, returning
(month, day-of-month); fuel 11 suffices for the twelve months. -/
def monthDayAux (y : Nat) : Nat → Nat → Nat → Nat × Nat
  | 0, m, d => (m, d + 1)
  | fuel + 1, m, d =>
      if d < monthLen y m then (m, d + 1) else monthDayAux y fuel (m + 1) (d - monthLen y m)

/-- Month and day-of-month from a year and a zero-based day of year. -/
def monthDay (y doy : Nat) : Nat × Nat := monthDayAux y 11 1 doy

/-- Zero-based day of year of an Instant. -/
def doyOf (t : Nat) : Nat := (t - yearStart (yearOf t)) / 86400

/-- Calendar month (1-12) of an Instant. -/
def monthOf (t : Nat) : Nat := (monthDay (yearOf t) (doyOf t)).1

/-- Day of month (1-31) of an Instant. -/
def dayOf (t : Nat) : Nat := (monthDay (yearOf t) (doyOf t)).2

/-- Zero-padding to two digits, the %02d conversion of the sketch. -/
def pad2 (n : Nat) : String := if n < 10 then "0" ++ toString n else toString n

/-- Zero-padding to four digits, the %04d conversion of the sketch. -/
def pad4 (n : Nat) : String :=
  if n < 10 then "000" ++ toString n
  else if n < 100 then "00" ++ toString n
  else if n < 1000 then "0" ++ toString n
  else toString n

/-- mkDateStr (src lines 403-409): render an Instant as YYYY-MM-DD. -/
def mkDateStr (t : Nat) : String :=
  pad4 (yearOf t) ++ "-" ++ pad2 (monthOf t) ++ "-" ++ pad2 (dayOf t)

/-- mkTimeStr (src lines 433-439): render an Instant as HH:MM:SS. -/
def mkTimeStr (t : Nat) : String :=
  pad2 (hourOf t) ++ ":" ++ pad2 (minuteOf t) ++ ":" ++ pad2 (secondOf t)

/- ================= Timezone rules and conversion ================= -/

/-- The TimeChangeRule record of src lines 135-136: abbreviation (stored as
its character codes, mirroring the char[6] field), week ordinal (1 = First,
2 = Second, ...), day of week (1 = Sunday), month (1 = January), local hour
of the change, and UTC offset in minutes. -/
structure TimeChangeRule where
  tzName : List Nat
  week : Nat
  dow : Nat
  month : Nat
  hour : Nat
  offset : Int
deriving DecidableEq

/-- myDST (src line 135): "EDT", Second Sunday of March at 02:00, UTC-240 min. -/
def myDST : TimeChangeRule := ⟨[69, 68, 84], 2, 1, 3, 2, -240⟩

/-- mySTD (src line 136): "EST", First Sunday of November at 02:00, UTC-300 min. -/
def mySTD : TimeChangeRule := ⟨[69, 83, 84], 1, 1, 11, 2, -300⟩

/-- Modelled from the spec: day of week of an Instant, 1 = Sunday (the epoch,
Jan 1 1970, fell on a Thursday = 5). -/
def dayOfWeekOf (t : Nat) : Nat := (t / 86400 + 4) % 7 + 1

/-- Modelled from the spec: resolve a rule's ordinal-weekday-of-month to a
concrete day of the month for year y (weeks First..Fourth as used by the
compiled-in pair). -/
def nthDowDay (y mo wk dw : Nat) : Nat :=
  7 * (wk - 1) + 1 + (dw + 7 - dayOfWeekOf (makeTime y mo 1 0 0 0)) % 7

/-- Magnitude in seconds of a rule's UTC offset (both compiled-in rules are
west of Greenwich, so local = UTC - shift). -/
def shiftOf (r : TimeChangeRule) : Nat := r.offset.natAbs * 60

/-- Modelled from the spec: the UTC Instant of year y's transition into rule
r.  The rule's local hour is expressed in the offset of the other rule (the
one in force just before the change). -/
def transitionUTC (r other : TimeChangeRule) (y : Nat) : Nat :=
  makeTime y r.month (nthDowDay y r.month r.week r.dow) r.hour 0 0 + shiftOf other

/-- UTC Instant at which daylight time starts in year y. -/
def dstUTCyr (y : Nat) : Nat := transitionUTC myDST mySTD y

/-- UTC Instant at which standard time starts in year y. -/
def stdUTCyr (y : Nat) : Nat := transitionUTC mySTD myDST y

/-- Modelled from the spec: whether the daylight rule is in force at a UTC
Instant (between that year's two transitions, northern hemisphere). -/
def utcIsDST (t : Nat) : Bool :=
  decide (dstUTCyr (yearOf t) ≤ t) && decide (t < stdUTCyr (yearOf t))

/-- Modelled from the spec: convert a UTC Instant to local time by applying
the offset of whichever rule is in force. -/
def toLocal (t : Nat) : Nat :=
  if utcIsDST t then t - shiftOf myDST else t - shiftOf mySTD

/-- Modelled from the spec: convert a local Instant to UTC.  Both candidate
UTC instants are computed (assuming daylight, assuming standard) and the one
whose own rule is in force there is picked; when both or neither are
self-consistent (the ambiguous, resp. skipped, hour) the deterministic
tie-break favors the standard rule. -/
def toUTC (l : Nat) : Nat :=
  let ud := l + shiftOf myDST
  let us := l + shiftOf mySTD
  let dstOK := utcIsDST ud
  let stdOK := !utcIsDST us
  if dstOK && !stdOK then ud
  else if stdOK && !dstOK then us
  else us

/-- The one-hour window of UTC instants (the last daylight hour of the year)
whose local representation falls in the ambiguous repeated local hour at the
fall transition. -/
def ambiguousUTC (t : Nat) : Bool :=
  decide (stdUTCyr (yearOf t) - 3600 ≤ t) && decide (t < stdUTCyr (yearOf t))

/- ================= Reading formatters ================= -/

/-- Truncation toward zero, the semantics of the C (int) cast; sensor floats
are modelled exactly as rationals (none standing for NaN/no reading), and
truncating num/den toward zero is exactly the cast of the real value. -/
def ratTrunc (q : Rat) : Int := q.num.tdiv q.den

/-- Truncation toward zero of k * (q - i): the value k * (q - i) equals the
fraction k * (q.num - i * q.den) over q.den exactly, so truncating that
quotient is the C expression (int)(k * (q - i)). -/
def fracScaled (k : Nat) (q : Rat) (i : Int) : Int :=
  ((k : Int) * (q.num - i * q.den)).tdiv q.den

/-- mkTempStr (src lines 464-482): the buffer is preset to the "**"
placeholder and overwritten only when the reading is a number; the numeric
rendering is sprintf "%d.%d" of the integer part i = (int)c and
f = (int)(100 * (c - i)). -/
def mkTempStr (c : Option Rat) : String :=
  match c with
  | none => "**"
  | some c =>
      let i : Int := ratTrunc c
      let f : Int := fracScaled 100 c i
      toString i ++ "." ++ toString f

/-- mkHumidStr (src lines 508-526): placeholder preset, overwritten for a
numeric reading by sprintf "%d.%1d" of i = (int)h and
f = (int)(10 * (h - i)). -/
def mkHumidStr (h : Option Rat) : String :=
  match h with
  | none => "**"
  | some h =>
      let i : Int := ratTrunc h
      let f : Int := fracScaled 10 h i
      toString i ++ "." ++ toString f

/-- Number of characters after the last dot of a string (0 when there is no
dot and the whole string otherwise counts); used to state "exactly one
decimal place". -/
def fracLen (s : String) : Nat :=
  (s.toList.reverse.takeWhile (fun c => c != '.')).length

/- ================= The loop() scheduler ================= -/

/-- The static state of loop() that drives scheduling (src lines 332-334):
first = 1 at startup and the zero-initialised tLast of the previous
iteration's local time. -/
structure SchedState where
  first : Bool
  tLast : Nat
deriving DecidableEq

/-- Startup value of the loop() statics: first = 1, tLast = 0. -/
def schedInit : SchedState := ⟨true, 0⟩

/-- One scheduling check of loop() (src lines 342-363): convert now() to
local, do nothing unless the local second changed, and fire when this is the
first pass or the UTC second is 0 and the UTC minute is a multiple of 5. -/
def schedStep (s : SchedState) (utc : Nat) : Bool × SchedState :=
  let t := toLocal utc
  if t ≠ s.tLast then
    let fire := s.first || ((secondOf utc == 0) && (minuteOf utc % 5 == 0))
    (fire, ⟨if fire then false else s.first, t⟩)
  else (false, s)

/-- Run the scheduling check over a list of now() samples, collecting the
UTC instants at which it fired. -/
def schedRun : SchedState → List Nat → List Nat × SchedState
  | s, [] => ([], s)
  | s, u :: us =>
      let p := schedStep s u
      let r := schedRun p.2 us
      (if p.1 then u :: r.1 else r.1, r.2)

/-- A list of now() samples produced by a clock read once or more per second:
each sample repeats the previous one or advances it by one second. -/
def stepSeqB : List Nat → Bool
  | a :: b :: rest => ((b == a) || (b == a + 1)) && stepSeqB (b :: rest)
  | _ => true

/- ================= The full loop() body ================= -/

/-- The mutable device state touched by one loop() iteration: the two static
scheduler variables, the doLog flag set in setup(), the four global string
buffers, and whether halt() has been entered (halt never returns). -/
structure DevState where
  first : Bool
  tLast : Nat
  doLog : Bool
  bufDate : String
  bufTime : String
  bufTemp : String
  bufHumid : String
  halted : Bool
deriving DecidableEq

/-- Observable effects of one loop() iteration: the record appended to the
SD log (if any), whether the LCD display update ran, and whether the fatal
blink indicator is active. -/
structure LoopOut where
  logged : Option String
  displayed : Bool
  blinking : Bool
deriving DecidableEq

/-- Device state at the end of setup() with an SD card present. -/
def dev0 : DevState := ⟨true, 0, true, "", "", "", "", false⟩

/-- One iteration of loop() (src lines 330-381) driven by the inputs it
reads: the UTC clock, the UTC/local display mode pin (zone, 0 = local), the
two sensor readings (none = NaN), and whether SD.open succeeds.  sdLog on a
failed open calls halt(75,200), which blinks forever (src lines 388-395,
574-578): that is the absorbing halted state, during which neither tLast nor
the display is ever updated again. -/
def loopBody (s : DevState) (utc zone : Nat) (tempR humidR : Option Rat) (sdOk : Bool) :
    DevState × LoopOut :=
  if s.halted then (s, ⟨none, false, true⟩)
  else
    let t := toLocal utc
    if t ≠ s.tLast then
      let bufDate := mkDateStr utc
      let bufTime := mkTimeStr utc
      if s.first || ((secondOf utc == 0) && (minuteOf utc % 5 == 0)) then
        let bufHumid := mkHumidStr humidR
        let bufTemp := mkTempStr tempR
        if s.doLog && !sdOk then
          (⟨false, s.tLast, s.doLog, bufDate, bufTime, bufTemp, bufHumid, true⟩,
           ⟨none, false, true⟩)
        else
          let entry := if s.doLog then
              some (bufDate ++ "T" ++ bufTime ++ "Z" ++ "," ++ bufTemp ++ "," ++ bufHumid ++ "\r\n")
            else none
          let bufDate2 := if zone = 0 then mkDateStr t else bufDate
          let bufTime2 := if zone = 0 then mkTimeStr t else bufTime
          (⟨false, t, s.doLog, bufDate2, bufTime2, bufTemp, bufHumid, false⟩,
           ⟨entry, true, false⟩)
      else
        let bufDate2 := if zone = 0 then mkDateStr t else bufDate
        let bufTime2 := if zone = 0 then mkTimeStr t else bufTime
        (⟨s.first, t, s.doLog, bufDate2, bufTime2, s.bufTemp, s.bufHumid, false⟩,
         ⟨none, true, false⟩)
    else (s, ⟨none, false, false⟩)

/- ================= EEPROM persistence ================= -/

/-- EEPROM base address (src define EEBASE). -/
def EEBASE : Nat := 100

/-- First signature marker byte (src define SIG1 = 0x55). -/
def SIG1 : Nat := 0x55

/-- Second signature marker byte (src define SIG2 = 0xAA). -/
def SIG2 : Nat := 0xAA

/-- Address of the stored timezone rules (src define TZBASE = EEBASE + 2). -/
def TZBASE : Nat := EEBASE + 2

/-- EEPROM.write of one byte (values reduced mod 256 like the uint8 cell). -/
def ewrite (e : Nat → Nat) (a v : Nat) : Nat → Nat :=
  fun x => if x = a then v % 256 else e x

/-- Write a list of bytes at consecutive addresses. -/
def writeList : (Nat → Nat) → Nat → List Nat → (Nat → Nat)
  | e, _, [] => e
  | e, a, v :: vs => writeList (ewrite e a v) (a + 1) vs

/-- Read n bytes from consecutive addresses. -/
def readList (e : Nat → Nat) : Nat → Nat → List Nat
  | _, 0 => []
  | a, n + 1 => e a :: readList e (a + 1) n

/-- validSignature (src lines 584-592): the stored configuration is trusted
exactly when the two bytes at EEBASE are SIG1 and SIG2. -/
def validSignature (e : Nat → Nat) : Bool :=
  (e EEBASE == SIG1) && (e (EEBASE + 1) == SIG2)

/-- writeSignature (src lines 594-598): write the two marker bytes. -/
def writeSignature (e : Nat → Nat) : Nat → Nat :=
  ewrite (ewrite e EEBASE SIG1) (EEBASE + 1) SIG2

/-- Modelled from the spec: fixed-width abbreviation field, six bytes with
zero padding (the char[6] member of the C struct). -/
def encAbbrev (l : List Nat) : List Nat :=
  [l.getD 0 0, l.getD 1 0, l.getD 2 0, l.getD 3 0, l.getD 4 0, l.getD 5 0]

/-- Modelled from the spec: a rule's offset serialised as a little-endian
16-bit two's-complement pair of bytes (the AVR int member). -/
def encOffset (o : Int) : List Nat :=
  [(o % 65536).toNat % 256, (o % 65536).toNat / 256]

/-- Inverse of encOffset. -/
def decOffset (lo hi : Nat) : Int :=
  let v : Nat := lo + 256 * hi
  if v < 32768 then (v : Int) else (v : Int) - 65536

/-- Modelled from the spec: implementation-defined fixed-width (12-byte)
encoding of one TimeChangeRule. -/
def encodeRule (r : TimeChangeRule) : List Nat :=
  encAbbrev r.tzName ++ [r.week, r.dow, r.month, r.hour] ++ encOffset r.offset

/-- Inverse of encodeRule on 12-byte inputs. -/
def decodeRule : List Nat → TimeChangeRule
  | [a0, a1, a2, a3, a4, a5, w, dw, mo, hh, o0, o1] =>
      ⟨[a0, a1, a2, a3, a4, a5].takeWhile (fun b => b != 0), w, dw, mo, hh, decOffset o0 o1⟩
  | _ => myDST

/-- The daylight/standard rule pair (spec RulePair). -/
structure RulePair where
  dstRule : TimeChangeRule
  stdRule : TimeChangeRule
deriving DecidableEq

/-- The compiled-in default pair (src line 137). -/
def myTZRules : RulePair := ⟨myDST, mySTD⟩

/-- Timezone::writeRules modelled from the spec: serialise the daylight rule
then the standard rule starting at TZBASE. -/
def writeRules (e : Nat → Nat) (rp : RulePair) : Nat → Nat :=
  writeList e TZBASE (encodeRule rp.dstRule ++ encodeRule rp.stdRule)

/-- Timezone::readRules modelled from the spec: decode the two 12-byte rule
records stored at TZBASE. -/
def readRules (e : Nat → Nat) : RulePair :=
  ⟨decodeRule (readList e TZBASE 12), decodeRule (readList e (TZBASE + 12) 12)⟩

/-- PersistentConfig.load: the rules are returned only under a valid
signature, otherwise Invalid (none). -/
def loadConfig (e : Nat → Nat) : Option RulePair :=
  if validSignature e then some (readRules e) else none

/-- PersistentConfig.save as performed by setClock (src lines 641-642):
write the signature bytes, then the rules. -/
def saveConfig (e : Nat → Nat) (rp : RulePair) : Nat → Nat :=
  writeRules (writeSignature e) rp

/-- Well-formedness of a rule as stored in the C struct: abbreviation of at
most six nonzero bytes, byte-sized ordinal fields, 16-bit offset. -/
def wfRule (r : TimeChangeRule) : Bool :=
  decide (r.tzName.length ≤ 6) && r.tzName.all (fun b => (b != 0) && decide (b < 256)) &&
  decide (r.week < 256) && decide (r.dow < 256) && decide (r.month < 256) &&
  decide (r.hour < 256) && decide (-32768 ≤ r.offset) && decide (r.offset < 32768)

/- ================= The setClock operator protocol ================= -/

/-- State touched by setClock: the hardware real-time counter, the software
clock, and the EEPROM. -/
structure ClockState where
  rtc : Nat
  sysTime : Nat
  eeprom : Nat → Nat

/-- The Time library macro y2kYearToTm: a 2-digit year is an offset from
2000, i.e. offset-from-1970 = y + 30. -/
def y2kYearToTm (y : Int) : Int := y + 30

/-- The Time library macro CalendarYrToTm: offset-from-1970 = y - 1970. -/
def CalendarYrToTm (y : Int) : Int := y - 1970

/-- Modelled from the spec: the Time library makeTime on a tmElements record
whose Year is an offset from 1970; fields are taken in range (negative
values clamp at zero as the unsigned struct members cannot hold them). -/
def makeTimeTm (yOff mo d hh mi ss : Int) : Nat :=
  makeTime (1970 + yOff).toNat mo.toNat d.toNat hh.toNat mi.toNat ss.toNat

/-- setClock (src lines 602-654) given the number of buffered serial bytes
and the stream of integers successive Serial.parseInt calls would return.
Returns the new clock state, the unconsumed remainder of the parse stream,
and whether the year-format error was reported.  Nothing happens under 12
buffered bytes; a 3-digit year prints the error and returns with the
remaining input still buffered (the drain loop is only in the success
branch); otherwise the local time is built (2-digit years via y2kYearToTm,
4-digit via CalendarYrToTm), converted to UTC, written to both clocks, and
the signature plus rules are persisted before the input is drained. -/
def setClock (avail : Nat) (vals : List Int) (st : ClockState) :
    ClockState × List Int × Bool :=
  if 12 ≤ avail then
    let y := vals.headI
    let r1 := vals.tail
    if 100 ≤ y ∧ y < 1000 then
      (st, r1, true)
    else
      let tmYear := if 1000 ≤ y then CalendarYrToTm y else y2kYearToTm y
      let mo := r1.headI
      let r2 := r1.tail
      let d := r2.headI
      let r3 := r2.tail
      let hh := r3.headI
      let r4 := r3.tail
      let mi := r4.headI
      let r5 := r4.tail
      let ss := r5.headI
      let t := makeTimeTm tmYear mo d hh mi ss
      let utc := toUTC t
      (⟨utc, utc, writeRules (writeSignature st.eeprom) myTZRules⟩, [], false)
  else (st, vals, false)

/-- All-zero EEPROM. -/
def eeprom0 : Nat → Nat := fun _ => 0

/-- Clock state with zeroed counters and EEPROM. -/
def clock0 : ClockState := ⟨0, 0, eeprom0⟩

/- ================= Lemmas: local-time conversion basics ================= -/

lemma toLocal_eq_or (t : Nat) : toLocal t = t - 14400 ∨ toLocal t = t - 18000 := by
  unfold toLocal
  split
  · left; rfl
  · right; rfl

lemma toLocal_pos (t : Nat) (h : 18000 < t) : toLocal t ≠ 0 := by
  rcases toLocal_eq_or t with h1 | h1 <;> omega

lemma toLocal_succ_ne (u : Nat) (h : 18000 ≤ u) : toLocal (u + 1) ≠ toLocal u := by
  rcases toLocal_eq_or (u + 1) with h1 | h1 <;> rcases toLocal_eq_or u with h2 | h2 <;> omega

/- ================= C3: cold-start fire ================= -/

/-- C3: on the very first scheduling check after startup (first = 1,
tLast = 0) the sample-and-log cycle fires unconditionally, whatever the
current second and minute are; the only proviso is that the clock reads a
real post-1970 instant (local time nonzero), which the zero-initialised
tLast would otherwise mask. -/
theorem sched_first_call_fires (utc : Nat) (h : 18000 < utc) :
    (schedStep schedInit utc).1 = true := by
  have hne := toLocal_pos utc h
  simp [schedStep, schedInit, hne]

/-- Witness for sched_first_call_fires at an instant whose second (27) and
minute (33) satisfy neither firing condition. -/
theorem sched_first_call_fires_witness : (schedStep schedInit 20007).1 = true :=
  sched_first_call_fires 20007 (by norm_num)

/- ================= C6: NaN renders as the placeholder ================= -/

/-- C6: a NaN/unavailable reading renders as the fixed two-character
placeholder for both temperature and humidity, never as "0.0" (and the
formatters are total functions, so no crash). -/
theorem fmt_nan_placeholder :
    mkTempStr none = "**" ∧ mkHumidStr none = "**" ∧
    mkTempStr none ≠ "0.0" ∧ mkHumidStr none ≠ "0.0" := by
  refine ⟨rfl, rfl, by decide, by decide⟩

/- ================= C10: setClock error paths change no state ================= -/

/-- C10: when fewer than 12 bytes are buffered, or the parsed year lies in
[100, 1000), setClock leaves the hardware counter, the software clock and
the EEPROM exactly as they were (the whole ClockState is returned
untouched). -/
theorem setClock_no_state_change (avail : Nat) (vals : List Int) (st : ClockState) :
    (avail < 12 → setClock avail vals st = (st, vals, false)) ∧
    (12 ≤ avail → 100 ≤ vals.headI → vals.headI < 1000 →
      setClock avail vals st = (st, vals.tail, true)) := by
  constructor
  · intro h
    unfold setClock
    rw [if_neg (by omega)]
  · intro h12 hy1 hy2
    unfold setClock
    rw [if_pos h12, if_pos ⟨hy1, hy2⟩]

/-- Witness for setClock_no_state_change: a short buffer and a 3-digit year
both leave the state untouched. -/
theorem setClock_no_state_change_witness :
    setClock 5 [(3 : Int)] clock0 = (clock0, [(3 : Int)], false) ∧
    setClock 15 [100, 3, 15, 9, 30, 0] clock0 = (clock0, [3, 15, 9, 30, 0], true) := by
  constructor
  · exact (setClock_no_state_change 5 [(3 : Int)] clock0).1 (by norm_num)
  · exact (setClock_no_state_change 15 [100, 3, 15, 9, 30, 0] clock0).2
      (by norm_num) (by norm_num) (by norm_num)

/- ================= C8: year format handling in setClock ================= -/

/-- C8 counterexample: on the 3-digit year 100 the error is reported and the
state untouched, but the buffered input is NOT discarded - the five integers
after the year remain unconsumed (the drain loop sits only in the success
branch of src lines 650-651). -/
theorem setClock_three_digit_cex :
    (setClock 15 [100, 3, 15, 9, 30, 0] clock0).2.1 = [3, 15, 9, 30, 0] ∧
    (setClock 15 [100, 3, 15, 9, 30, 0] clock0).2.1 ≠ [] ∧
    (setClock 15 [100, 3, 15, 9, 30, 0] clock0).2.2 = true := by
  refine ⟨rfl, by decide, rfl⟩

/-- C8 amended: a 2-digit year is year-2000-relative (y2kYearToTm) and a
4-digit year is a calendar year (CalendarYrToTm); a 3-digit year in
[100, 1000) is rejected with a console error and no state change, but the
remaining input stays buffered (only a successful parse drains it) and the
flow simply returns to its caller's wait loop. -/
theorem setClock_year_rules (avail : Nat) (y : Int) (rest : List Int) (st : ClockState)
    (h12 : 12 ≤ avail) :
    (100 ≤ y → y < 1000 → setClock avail (y :: rest) st = (st, rest, true)) ∧
    (y < 100 → setClock avail (y :: rest) st =
      (⟨toUTC (makeTimeTm (y2kYearToTm y) rest.headI rest.tail.headI rest.tail.tail.headI
          rest.tail.tail.tail.headI rest.tail.tail.tail.tail.headI),
        toUTC (makeTimeTm (y2kYearToTm y) rest.headI rest.tail.headI rest.tail.tail.headI
          rest.tail.tail.tail.headI rest.tail.tail.tail.tail.headI),
        writeRules (writeSignature st.eeprom) myTZRules⟩, [], false)) ∧
    (1000 ≤ y → setClock avail (y :: rest) st =
      (⟨toUTC (makeTimeTm (CalendarYrToTm y) rest.headI rest.tail.headI rest.tail.tail.headI
          rest.tail.tail.tail.headI rest.tail.tail.tail.tail.headI),
        toUTC (makeTimeTm (CalendarYrToTm y) rest.headI rest.tail.headI rest.tail.tail.headI
          rest.tail.tail.tail.headI rest.tail.tail.tail.tail.headI),
        writeRules (writeSignature st.eeprom) myTZRules⟩, [], false)) := by
  refine ⟨?_, ?_, ?_⟩
  · intro hy1 hy2
    simp only [setClock, List.headI, List.tail]
    rw [if_pos h12, if_pos ⟨hy1, hy2⟩]
  · intro hy
    simp only [setClock, List.headI, List.tail]
    rw [if_pos h12, if_neg (by omega : ¬((100 : Int) ≤ y ∧ y < 1000)),
      if_neg (by omega : ¬((1000 : Int) ≤ y))]
  · intro hy
    simp only [setClock, List.headI, List.tail]
    rw [if_pos h12, if_neg (by omega : ¬((100 : Int) ≤ y ∧ y < 1000)),
      if_pos (by omega : (1000 : Int) ≤ y)]

/-- Witness for setClock_year_rules: the 2-digit year 24 is interpreted
through y2kYearToTm, both clocks receive the converted UTC instant, the
configuration is persisted and the input is drained. -/
theorem setClock_year_rules_witness :
    setClock 15 [24, 3, 15, 9, 30, 0] clock0 =
      (⟨toUTC (makeTimeTm (y2kYearToTm 24) 3 15 9 30 0),
        toUTC (makeTimeTm (y2kYearToTm 24) 3 15 9 30 0),
        writeRules (writeSignature clock0.eeprom) myTZRules⟩, [], false) := by
  have h := (setClock_year_rules 15 24 [3, 15, 9, 30, 0] clock0 (by norm_num)).2.1 (by norm_num)
  simpa using h

/- ================= C5: decimal places of the formatters ================= -/

lemma takeWhile_append_of_all {α : Type} (p : α → Bool) (l1 l2 : List α)
    (h : ∀ c ∈ l1, p c = true) :
    (l1 ++ l2).takeWhile p = l1 ++ l2.takeWhile p := by
  induction l1 with
  | nil => simp
  | cons a l ih =>
      have ha : p a = true := h a (List.mem_cons_self a l)
      simp only [List.cons_append, List.takeWhile_cons, ha, if_true]
      rw [ih (fun c hc => h c (List.mem_cons_of_mem a hc))]

lemma fracLen_concat (a d : String) (h : ∀ c ∈ d.toList, c ≠ '.') :
    fracLen (a ++ "." ++ d) = d.length := by
  unfold fracLen
  have hsplit : (a ++ "." ++ d).toList = (a.toList ++ ['.']) ++ d.toList := by
    show (a ++ "." ++ d).data = (a.data ++ ['.']) ++ d.data
    rw [String.data_append, String.data_append]
  rw [hsplit]
  rw [List.reverse_append]
  have hall : ∀ c ∈ d.toList.reverse, (c != '.') = true := by
    intro c hc
    have := h c (List.mem_reverse.mp hc)
    simpa using this
  rw [takeWhile_append_of_all _ _ _ hall]
  have hstop : (a.toList ++ ['.']).reverse.takeWhile (fun c => c != '.') = [] := by
    rw [List.reverse_append]
    simp [List.takeWhile_cons]
  rw [hstop]
  rw [List.append_nil, List.length_reverse]
  rfl

lemma toString_digit (f : Int) (h0 : 0 ≤ f) (h10 : f < 10) :
    (toString f).length = 1 ∧ ∀ c ∈ (toString f).toList, c ≠ '.' := by
  interval_cases f <;> exact ⟨rfl, by decide⟩

lemma toString_digit2 (f : Int) (h0 : 0 ≤ f) (h100 : f < 100) :
    1 ≤ (toString f).length ∧ (toString f).length ≤ 2 ∧
    ∀ c ∈ (toString f).toList, c ≠ '.' := by
  interval_cases f <;> exact ⟨by decide, by decide, by decide⟩

lemma fracScaled_bounds (k : Nat) (q : Rat) (hq : 0 ≤ q) (hk : 0 < k) :
    0 ≤ fracScaled k q (ratTrunc q) ∧ fracScaled k q (ratTrunc q) < k := by
  have hnum : 0 ≤ q.num := Rat.num_nonneg.mpr hq
  have hden : 0 < (q.den : Int) := by exact_mod_cast q.den_pos
  have htr : ratTrunc q = q.num / (q.den : Int) := by
    unfold ratTrunc
    exact Int.tdiv_eq_ediv hnum (le_of_lt hden)
  have hr : q.num - ratTrunc q * q.den = q.num % (q.den : Int) := by
    rw [htr, Int.emod_def]
    ring
  have hr0 : 0 ≤ q.num - ratTrunc q * q.den := by
    rw [hr]
    exact Int.emod_nonneg q.num (by omega)
  have hr1 : q.num - ratTrunc q * q.den < (q.den : Int) := by
    rw [hr]
    exact Int.emod_lt_of_pos q.num hden
  have hk' : 0 < (k : Int) := by exact_mod_cast hk
  have hprod : 0 ≤ (k : Int) * (q.num - ratTrunc q * q.den) := by positivity
  have htd : fracScaled k q (ratTrunc q) =
      ((k : Int) * (q.num - ratTrunc q * q.den)) / (q.den : Int) := by
    unfold fracScaled
    exact Int.tdiv_eq_ediv hprod (le_of_lt hden)
  constructor
  · rw [htd]
    exact Int.ediv_nonneg hprod (le_of_lt hden)
  · rw [htd]
    apply Int.ediv_lt_of_lt_mul hden
    calc (k : Int) * (q.num - ratTrunc q * q.den) < (k : Int) * q.den := by
          exact mul_lt_mul_of_pos_left hr1 hk'
    _ = (k : Int) * q.den := rfl

lemma fracScaled_bounds_neg (k : Nat) (q : Rat) (hq : q < 0) (hk : 0 < k) :
    -(k : Int) < fracScaled k q (ratTrunc q) ∧ fracScaled k q (ratTrunc q) ≤ 0 := by
  have hnum : q.num < 0 := by
    by_contra hge
    push_neg at hge
    exact absurd (Rat.num_nonneg.mp hge) (not_le.mpr hq)
  have hden : 0 < (q.den : Int) := by exact_mod_cast q.den_pos
  set n : Int := -q.num with hn
  have hn0 : 0 ≤ n := by omega
  have hqn : q.num = -n := by omega
  have htr : ratTrunc q = -(n / (q.den : Int)) := by
    unfold ratTrunc
    rw [hqn, Int.neg_tdiv, Int.tdiv_eq_ediv hn0 (le_of_lt hden)]
  have hr : q.num - ratTrunc q * q.den = -(n % (q.den : Int)) := by
    rw [htr, Int.emod_def, hqn]
    ring
  have hm0 : 0 ≤ n % (q.den : Int) := Int.emod_nonneg n (by omega)
  have hm1 : n % (q.den : Int) < (q.den : Int) := Int.emod_lt_of_pos n hden
  have hk' : 0 < (k : Int) := by exact_mod_cast hk
  have hfs : fracScaled k q (ratTrunc q) =
      -(((k : Int) * (n % (q.den : Int))) / (q.den : Int)) := by
    unfold fracScaled
    rw [hr]
    have hmul : (k : Int) * -(n % (q.den : Int)) = -((k : Int) * (n % (q.den : Int))) := by ring
    rw [hmul, Int.neg_tdiv, Int.tdiv_eq_ediv (by positivity) (le_of_lt hden)]
  constructor
  · rw [hfs]
    have hlt : ((k : Int) * (n % (q.den : Int))) / (q.den : Int) < k := by
      apply Int.ediv_lt_of_lt_mul hden
      exact mul_lt_mul_of_pos_left hm1 hk'
    omega
  · rw [hfs]
    have hge : 0 ≤ ((k : Int) * (n % (q.den : Int))) / (q.den : Int) :=
      Int.ediv_nonneg (by positivity) (le_of_lt hden)
    omega

lemma toString_digit_neg (f : Int) (h0 : -100 < f) (h1 : f < 0) :
    2 ≤ (toString f).length ∧ (toString f).length ≤ 3 ∧
    ∀ c ∈ (toString f).toList, c ≠ '.' := by
  interval_cases f <;> exact ⟨by decide, by decide, by decide⟩

/-- C5 counterexample: the in-range temperature reading 22.5 renders as
"22.50" - two digits after the decimal point, not one - and the in-range
negative reading -5.5 renders as "-5.-50", with a second minus sign after
the point and three characters in the fraction field: the sketch prints
trunc(c) and trunc(100 * frac(c)) with "%d.%d" (hundredths, as its own
comment on src line 480 says), which pads nothing and re-renders a negative
fraction field with its own sign. -/
theorem fmt_one_decimal_cex :
    (0 ≤ mkRat 45 2 ∧ mkRat 45 2 ≤ 100) ∧
    mkTempStr (some (mkRat 45 2)) = "22.50" ∧
    fracLen (mkTempStr (some (mkRat 45 2))) = 2 ∧
    (-40 ≤ mkRat (-11) 2 ∧ mkRat (-11) 2 ≤ 100) ∧
    mkTempStr (some (mkRat (-11) 2)) = "-5.-50" ∧
    fracLen (mkTempStr (some (mkRat (-11) 2))) = 3 := by
  exact ⟨by decide, by decide, by decide, by decide, by decide, by decide⟩

/-- C5 amended: the humidity string (reading range 0-100) has exactly one
truncated digit after the decimal point, but the temperature string is the
"%d.%d" rendering of trunc(c) and trunc(100 * frac(c)) with no zero padding
and no sign normalisation: a nonnegative reading yields one or two digits
after the point, a negative reading with nonzero truncated hundredths yields
a minus-signed fraction field of two or three characters after the point
(e.g. "-5.-50"), and a negative reading with zero truncated hundredths
yields the single character "0" - never the claimed fixed one decimal
place. -/
theorem fmt_decimals_amended (h c : Rat) (hh0 : 0 ≤ h) (hh1 : h ≤ 100) :
    fracLen (mkHumidStr (some h)) = 1 ∧
    (0 ≤ c → 1 ≤ fracLen (mkTempStr (some c)) ∧ fracLen (mkTempStr (some c)) ≤ 2) ∧
    (c < 0 → fracScaled 100 c (ratTrunc c) ≠ 0 →
      2 ≤ fracLen (mkTempStr (some c)) ∧ fracLen (mkTempStr (some c)) ≤ 3) ∧
    (c < 0 → fracScaled 100 c (ratTrunc c) = 0 →
      fracLen (mkTempStr (some c)) = 1) := by
  obtain ⟨hf0, hf10⟩ := fracScaled_bounds 10 h hh0 (by norm_num)
  have hf10' : fracScaled 10 h (ratTrunc h) < (10 : Int) := by exact_mod_cast hf10
  obtain ⟨hlen1, hdot1⟩ := toString_digit _ hf0 hf10'
  refine ⟨?_, ?_, ?_, ?_⟩
  · show fracLen (toString (ratTrunc h) ++ "." ++ toString (fracScaled 10 h (ratTrunc h))) = 1
    rw [fracLen_concat _ _ hdot1]
    exact hlen1
  · intro hc0
    obtain ⟨hg0, hg100⟩ := fracScaled_bounds 100 c hc0 (by norm_num)
    have hg100' : fracScaled 100 c (ratTrunc c) < (100 : Int) := by exact_mod_cast hg100
    obtain ⟨hlo, hhi, hdot2⟩ := toString_digit2 _ hg0 hg100'
    constructor
    · show 1 ≤ fracLen (toString (ratTrunc c) ++ "." ++ toString (fracScaled 100 c (ratTrunc c)))
      rw [fracLen_concat _ _ hdot2]
      exact hlo
    · show fracLen (toString (ratTrunc c) ++ "." ++ toString (fracScaled 100 c (ratTrunc c))) ≤ 2
      rw [fracLen_concat _ _ hdot2]
      exact hhi
  · intro hcneg hfne
    obtain ⟨hglo, hghi⟩ := fracScaled_bounds_neg 100 c hcneg (by norm_num)
    have hglo' : -(100 : Int) < fracScaled 100 c (ratTrunc c) := by exact_mod_cast hglo
    have hgneg : fracScaled 100 c (ratTrunc c) < 0 := lt_of_le_of_ne hghi hfne
    obtain ⟨hlo, hhi, hdot3⟩ := toString_digit_neg _ hglo' hgneg
    constructor
    · show 2 ≤ fracLen (toString (ratTrunc c) ++ "." ++ toString (fracScaled 100 c (ratTrunc c)))
      rw [fracLen_concat _ _ hdot3]
      exact hlo
    · show fracLen (toString (ratTrunc c) ++ "." ++ toString (fracScaled 100 c (ratTrunc c))) ≤ 3
      rw [fracLen_concat _ _ hdot3]
      exact hhi
  · intro hcneg hfz
    show fracLen (toString (ratTrunc c) ++ "." ++ toString (fracScaled 100 c (ratTrunc c))) = 1
    rw [hfz]
    rw [fracLen_concat _ _ (by decide : ∀ ch ∈ (toString (0 : Int)).toList, ch ≠ '.')]
    decide

/-- Witness for fmt_decimals_amended at humidity 55.5 and temperatures
22.5 (nonnegative branch) and -5.5 (negative branch). -/
theorem fmt_decimals_amended_witness :
    (fracLen (mkHumidStr (some (mkRat 111 2))) = 1 ∧
     1 ≤ fracLen (mkTempStr (some (mkRat 45 2))) ∧
     fracLen (mkTempStr (some (mkRat 45 2))) ≤ 2) ∧
    (2 ≤ fracLen (mkTempStr (some (mkRat (-11) 2))) ∧
     fracLen (mkTempStr (some (mkRat (-11) 2))) ≤ 3) := by
  constructor
  · exact ⟨(fmt_decimals_amended (mkRat 111 2) (mkRat 45 2) (by decide) (by decide)).1,
      (fmt_decimals_amended (mkRat 111 2) (mkRat 45 2) (by decide) (by decide)).2.1 (by decide)⟩
  · exact (fmt_decimals_amended (mkRat 111 2) (mkRat (-11) 2) (by decide) (by decide)).2.2.1
      (by decide) (by decide)

/- ================= C7: the SD record wire format ================= -/

lemma loopBody_logged (s : DevState) (utc zone : Nat) (tR hR : Option Rat) (sdOk : Bool) :
    (loopBody s utc zone tR hR sdOk).2.logged = none ∨
    (loopBody s utc zone tR hR sdOk).2.logged =
      some (mkDateStr utc ++ "T" ++ mkTimeStr utc ++ "Z" ++ "," ++
        mkTempStr tR ++ "," ++ mkHumidStr hR ++ "\r\n") := by
  unfold loopBody
  split_ifs <;> try simp
  all_goals split <;> simp

/-- C7 counterexample: the record appended for the first cycle at UTC 20000
is the CRLF-terminated "1970-01-01T05:33:20Z,**,**\r\n" (Arduino println
emits carriage return + newline), not the exact claimed form with a bare
newline directly after the humidity field. -/
theorem sdlog_record_cex :
    (loopBody dev0 20000 1 none none true).2.logged =
      some ("1970-01-01T05:33:20Z,**,**\r\n") ∧
    (loopBody dev0 20000 1 none none true).2.logged ≠
      some ("1970-01-01T05:33:20Z,**,**\n") := by
  exact ⟨by decide, by decide⟩

/-- C7 amended: every record appended to the durable log has exactly the
wire form DATE"T"TIME"Z",TEMP,HUMID followed by carriage return + newline
(the println line ending), where DATE and TIME are rendered from the UTC
instant - never from the local-time conversion, whatever the display zone
is - and the temperature and humidity fields are comma separated. -/
theorem sdlog_record_utc (s : DevState) (utc zone : Nat) (tR hR : Option Rat) (sdOk : Bool)
    (r : String) (hlog : (loopBody s utc zone tR hR sdOk).2.logged = some r) :
    r = mkDateStr utc ++ "T" ++ mkTimeStr utc ++ "Z" ++ "," ++
        mkTempStr tR ++ "," ++ mkHumidStr hR ++ "\r\n" := by
  rcases loopBody_logged s utc zone tR hR sdOk with h | h
  · rw [h] at hlog
    cases hlog
  · rw [h] at hlog
    exact (Option.some.inj hlog).symm

/-- Witness for sdlog_record_utc: the first cycle in local display mode
(zone = 0) still logs the UTC-rendered record. -/
theorem sdlog_record_utc_witness :
    ∃ r, (loopBody dev0 20000 0 none none true).2.logged = some r ∧
      r = mkDateStr 20000 ++ "T" ++ mkTimeStr 20000 ++ "Z" ++ "," ++
          mkTempStr none ++ "," ++ mkHumidStr none ++ "\r\n" := by
  have hlog : (loopBody dev0 20000 0 none none true).2.logged =
      some ("1970-01-01T05:33:20Z,**,**\r\n") := by decide
  exact ⟨_, hlog, sdlog_record_utc dev0 20000 0 none none true _ hlog⟩

/- ================= C9: a failed append halts the device ================= -/

/-- C9 counterexample: after one failed append (SD open fails on the first
cycle) the device is halted, and on the next second - although the clock
advanced - no display update happens and the state never changes again: the
clock and display functions do NOT continue to operate. -/
theorem halt_stops_display_cex :
    ((loopBody dev0 20000 1 none none false).1.halted = true) ∧
    ((loopBody ((loopBody dev0 20000 1 none none false).1) 20001 1 none none true).2.displayed
      = false) ∧
    ((loopBody ((loopBody dev0 20000 1 none none false).1) 20001 1 none none true).1 =
      (loopBody dev0 20000 1 none none false).1) := by
  exact ⟨by decide, by decide, by decide⟩

/-- C9 amended: the process never exits, but a failed append does not leave
the rest of the system running: it raises the visible blink indication and
enters the absorbing halted state (halt() at src line 577 never returns), in
which no further record is logged, no display update runs, and the state is
preserved forever while the indicator blinks. -/
theorem storage_fault_halts (s : DevState) (utc zone : Nat) (tR hR : Option Rat)
    (hH : s.halted = false) (hDo : s.doLog = true)
    (hGate : toLocal utc ≠ s.tLast)
    (hFire : (s.first || ((secondOf utc == 0) && (minuteOf utc % 5 == 0))) = true) :
    (loopBody s utc zone tR hR false).2.blinking = true ∧
    (loopBody s utc zone tR hR false).2.logged = none ∧
    (loopBody s utc zone tR hR false).2.displayed = false ∧
    (loopBody s utc zone tR hR false).1.halted = true ∧
    (∀ (s2 : DevState) (utc2 zone2 : Nat) (tR2 hR2 : Option Rat) (sdOk2 : Bool),
      s2.halted = true →
      loopBody s2 utc2 zone2 tR2 hR2 sdOk2 = (s2, ⟨none, false, true⟩)) := by
  have hbody : loopBody s utc zone tR hR false =
      (⟨false, s.tLast, s.doLog, mkDateStr utc, mkTimeStr utc,
        mkTempStr tR, mkHumidStr hR, true⟩, ⟨none, false, true⟩) := by
    unfold loopBody
    rw [if_neg (by rw [hH]; exact Bool.false_ne_true), if_pos hGate, if_pos hFire,
      if_pos (by rw [hDo]; rfl)]
  refine ⟨?_, ?_, ?_, ?_, ?_⟩
  · rw [hbody]
  · rw [hbody]
  · rw [hbody]
  · rw [hbody]
  · intro s2 utc2 zone2 tR2 hR2 sdOk2 hs2
    unfold loopBody
    rw [if_pos hs2]

/-- Witness for storage_fault_halts: the first cycle with a failed SD open
halts the device and the halted state absorbs further iterations. -/
theorem storage_fault_halts_witness :
    (loopBody dev0 20000 1 none none false).2.blinking = true ∧
    (loopBody dev0 20000 1 none none false).2.logged = none ∧
    (loopBody dev0 20000 1 none none false).2.displayed = false ∧
    (loopBody dev0 20000 1 none none false).1.halted = true ∧
    (∀ (s2 : DevState) (utc2 zone2 : Nat) (tR2 hR2 : Option Rat) (sdOk2 : Bool),
      s2.halted = true →
      loopBody s2 utc2 zone2 tR2 hR2 sdOk2 = (s2, ⟨none, false, true⟩)) :=
  storage_fault_halts dev0 20000 1 none none rfl rfl (by decide) rfl

/- ================= C4: persistence round-trip ================= -/

lemma ewrite_at (e : Nat → Nat) (a v : Nat) : ewrite e a v a = v % 256 := by
  unfold ewrite
  simp

lemma ewrite_ne (e : Nat → Nat) (a v x : Nat) (h : x ≠ a) : ewrite e a v x = e x := by
  unfold ewrite
  simp [h]

lemma writeList_lower : ∀ (l : List Nat) (e : Nat → Nat) (a x : Nat), x < a →
    writeList e a l x = e x := by
  intro l
  induction l with
  | nil => intro e a x _; rfl
  | cons v vs ih =>
      intro e a x h
      show writeList (ewrite e a v) (a + 1) vs x = e x
      rw [ih _ _ _ (by omega)]
      exact ewrite_ne e a v x (by omega)

lemma writeList_append : ∀ (l1 l2 : List Nat) (e : Nat → Nat) (a : Nat),
    writeList e a (l1 ++ l2) = writeList (writeList e a l1) (a + l1.length) l2 := by
  intro l1
  induction l1 with
  | nil => intro l2 e a; simp [writeList]
  | cons v vs ih =>
      intro l2 e a
      show writeList (ewrite e a v) (a + 1) (vs ++ l2) = _
      rw [ih]
      have h1 : a + 1 + vs.length = a + (v :: vs).length := by
        simp
        omega
      rw [h1]
      rfl

lemma readList_write_high : ∀ (n a b : Nat) (l : List Nat) (e : Nat → Nat), a + n ≤ b →
    readList (writeList e b l) a n = readList e a n := by
  intro n
  induction n with
  | zero => intro a b l e _; rfl
  | succ k ih =>
      intro a b l e h
      show writeList e b l a :: readList _ (a + 1) k = e a :: readList e (a + 1) k
      rw [writeList_lower l e b a (by omega), ih (a + 1) b l e (by omega)]

lemma readList_writeList : ∀ (l : List Nat) (e : Nat → Nat) (a : Nat),
    readList (writeList e a l) a l.length = l.map (fun v => v % 256) := by
  intro l
  induction l with
  | nil => intro e a; rfl
  | cons v vs ih =>
      intro e a
      show writeList (ewrite e a v) (a + 1) vs a ::
          readList (writeList (ewrite e a v) (a + 1) vs) (a + 1) vs.length =
        (v % 256) :: vs.map (fun v => v % 256)
      rw [writeList_lower vs _ (a + 1) a (by omega), ewrite_at, ih (ewrite e a v) (a + 1)]

lemma getD_lt (l : List Nat) (i : Nat) (h : ∀ b ∈ l, b < 256) : l.getD i 0 < 256 := by
  induction l generalizing i with
  | nil => simp [List.getD]
  | cons a t ih =>
      cases i with
      | zero => exact h a (List.mem_cons_self a t)
      | succ j =>
          have : (a :: t).getD (j + 1) 0 = t.getD j 0 := rfl
          rw [this]
          exact ih j (fun b hb => h b (List.mem_cons_of_mem a hb))

lemma takeWhile_pad (l : List Nat) (h6 : l.length ≤ 6) (hnz : ∀ b ∈ l, b ≠ 0) :
    List.takeWhile (fun b => b != 0)
      [l.getD 0 0, l.getD 1 0, l.getD 2 0, l.getD 3 0, l.getD 4 0, l.getD 5 0] = l := by
  have hb : ∀ b ∈ l, (b != 0) = true := by
    intro b hb
    simpa using hnz b hb
  rcases l with _ | ⟨a, _ | ⟨b, _ | ⟨c, _ | ⟨d, _ | ⟨e, _ | ⟨f, rest⟩⟩⟩⟩⟩⟩
  · simp [List.getD]
  · have ha := hb a (by simp)
    simp [List.getD, List.takeWhile, ha]
  · have ha := hb a (by simp)
    have hbb := hb b (by simp)
    simp [List.getD, List.takeWhile, ha, hbb]
  · have ha := hb a (by simp)
    have hbb := hb b (by simp)
    have hc := hb c (by simp)
    simp [List.getD, List.takeWhile, ha, hbb, hc]
  · have ha := hb a (by simp)
    have hbb := hb b (by simp)
    have hc := hb c (by simp)
    have hd := hb d (by simp)
    simp [List.getD, List.takeWhile, ha, hbb, hc, hd]
  · have ha := hb a (by simp)
    have hbb := hb b (by simp)
    have hc := hb c (by simp)
    have hd := hb d (by simp)
    have he := hb e (by simp)
    simp [List.getD, List.takeWhile, ha, hbb, hc, hd, he]
  · have ha := hb a (by simp)
    have hbb := hb b (by simp)
    have hc := hb c (by simp)
    have hd := hb d (by simp)
    have he := hb e (by simp)
    have hf := hb f (by simp)
    rcases rest with _ | ⟨g, rest2⟩
    · simp [List.getD, List.takeWhile, ha, hbb, hc, hd, he, hf]
    · simp at h6

lemma decOffset_encOffset (o : Int) (h1 : -32768 ≤ o) (h2 : o < 32768) :
    decOffset ((o % 65536).toNat % 256) ((o % 65536).toNat / 256) = o := by
  have hrec : (o % 65536).toNat % 256 + 256 * ((o % 65536).toNat / 256) =
      (o % 65536).toNat := Nat.mod_add_div _ _
  simp only [decOffset]
  rw [hrec]
  split_ifs with h <;> omega

lemma wfRule_parts (r : TimeChangeRule) (h : wfRule r = true) :
    r.tzName.length ≤ 6 ∧ (∀ b ∈ r.tzName, b ≠ 0 ∧ b < 256) ∧
    r.week < 256 ∧ r.dow < 256 ∧ r.month < 256 ∧ r.hour < 256 ∧
    -32768 ≤ r.offset ∧ r.offset < 32768 := by
  simp only [wfRule, Bool.and_eq_true, decide_eq_true_eq, List.all_eq_true,
    bne_iff_ne, ne_eq] at h
  obtain ⟨⟨⟨⟨⟨⟨⟨h1, h2⟩, h3⟩, h4⟩, h5⟩, h6⟩, h7⟩, h8⟩ := h
  exact ⟨h1, fun b hb => ⟨(h2 b hb).1, (h2 b hb).2⟩, h3, h4, h5, h6, h7, h8⟩

lemma decode_encode (r : TimeChangeRule) (h : wfRule r = true) :
    decodeRule ((encodeRule r).map (fun v => v % 256)) = r := by
  obtain ⟨h6, hnz, hw, hdw, hmo, hhr, ho1, ho2⟩ := wfRule_parts r h
  obtain ⟨name, w, dw, mo, hh, off⟩ := r
  simp only at h6 hnz hw hdw hmo hhr ho1 ho2
  have hglt : ∀ i, name.getD i 0 < 256 := fun i =>
    getD_lt name i (fun b hb => (hnz b hb).2)
  have hgmod : ∀ i, name.getD i 0 % 256 = name.getD i 0 := fun i =>
    Nat.mod_eq_of_lt (hglt i)
  have hv : (off % 65536).toNat < 65536 := by
    omega
  simp only [encodeRule, encAbbrev, encOffset, List.cons_append, List.nil_append, List.map]
  simp only [decodeRule, TimeChangeRule.mk.injEq]
  refine ⟨?_, ?_, ?_, ?_, ?_, ?_⟩
  · rw [hgmod 0, hgmod 1, hgmod 2, hgmod 3, hgmod 4, hgmod 5]
    exact takeWhile_pad name h6 (fun b hb => (hnz b hb).1)
  · exact Nat.mod_eq_of_lt hw
  · exact Nat.mod_eq_of_lt hdw
  · exact Nat.mod_eq_of_lt hmo
  · exact Nat.mod_eq_of_lt hhr
  · rw [Nat.mod_eq_of_lt (Nat.mod_lt _ (by norm_num)),
      Nat.mod_eq_of_lt (show (off % 65536).toNat / 256 < 256 by omega)]
    exact decOffset_encOffset off ho1 ho2

lemma encodeRule_length (r : TimeChangeRule) : (encodeRule r).length = 12 := by
  simp [encodeRule, encAbbrev, encOffset]

/-- C4: the stored configuration is valid iff the two bytes at the reserved
offsets are exactly the markers 0x55 and 0xAA; any other pair makes load
report Invalid; and after a save (signature plus serialised rules, as
setClock performs it) a load returns the stored rule pair unchanged. -/
theorem config_signature_roundtrip (e : Nat → Nat) (rp : RulePair)
    (hwf1 : wfRule rp.dstRule = true) (hwf2 : wfRule rp.stdRule = true) :
    (validSignature e = true ↔ (e EEBASE = SIG1 ∧ e (EEBASE + 1) = SIG2)) ∧
    (validSignature e = false → loadConfig e = none) ∧
    loadConfig (saveConfig e rp) = some rp := by
  refine ⟨?_, ?_, ?_⟩
  · simp [validSignature, Bool.and_eq_true, beq_iff_eq]
  · intro h
    simp [loadConfig, h]
  · have hbytes : saveConfig e rp =
        writeList (writeSignature e) TZBASE (encodeRule rp.dstRule ++ encodeRule rp.stdRule) := rfl
    have hsig : validSignature (saveConfig e rp) = true := by
      rw [hbytes]
      have h100 : writeList (writeSignature e) TZBASE
          (encodeRule rp.dstRule ++ encodeRule rp.stdRule) 100 = writeSignature e 100 :=
        writeList_lower _ _ _ _ (by norm_num [TZBASE, EEBASE])
      have h101 : writeList (writeSignature e) TZBASE
          (encodeRule rp.dstRule ++ encodeRule rp.stdRule) 101 = writeSignature e 101 :=
        writeList_lower _ _ _ _ (by norm_num [TZBASE, EEBASE])
      have hs100 : writeSignature e 100 = SIG1 := rfl
      have hs101 : writeSignature e 101 = SIG2 := rfl
      simp [validSignature, EEBASE, h100, h101, hs100, hs101, SIG1, SIG2]
    have hsplit : writeList (writeSignature e) TZBASE
        (encodeRule rp.dstRule ++ encodeRule rp.stdRule) =
        writeList (writeList (writeSignature e) TZBASE (encodeRule rp.dstRule))
          (TZBASE + 12) (encodeRule rp.stdRule) := by
      rw [writeList_append]
      rw [encodeRule_length]
    have hread1 : readList (saveConfig e rp) TZBASE 12 =
        (encodeRule rp.dstRule).map (fun v => v % 256) := by
      rw [hbytes, hsplit]
      rw [readList_write_high 12 TZBASE (TZBASE + 12) _ _ (le_refl _)]
      have h12 : (12 : Nat) = (encodeRule rp.dstRule).length := (encodeRule_length _).symm
      rw [h12]
      exact readList_writeList _ _ _
    have hread2 : readList (saveConfig e rp) (TZBASE + 12) 12 =
        (encodeRule rp.stdRule).map (fun v => v % 256) := by
      rw [hbytes, hsplit]
      have h12 : (12 : Nat) = (encodeRule rp.stdRule).length := (encodeRule_length _).symm
      rw [h12]
      exact readList_writeList _ _ _
    have hrules : readRules (saveConfig e rp) = rp := by
      unfold readRules
      rw [hread1, hread2, decode_encode _ hwf1, decode_encode _ hwf2]
    simp [loadConfig, hsig, hrules]

/-- Witness for config_signature_roundtrip on the all-zero EEPROM and the
compiled-in default rule pair. -/
theorem config_signature_roundtrip_witness :
    (validSignature eeprom0 = true ↔ (eeprom0 EEBASE = SIG1 ∧ eeprom0 (EEBASE + 1) = SIG2)) ∧
    (validSignature eeprom0 = false → loadConfig eeprom0 = none) ∧
    loadConfig (saveConfig eeprom0 myTZRules) = some myTZRules :=
  config_signature_roundtrip eeprom0 myTZRules (by decide) (by decide)

/- ================= C2: exactly one fire per 5-minute bucket ================= -/

lemma stepSeqB_cons (a b : Nat) (l : List Nat) (h : stepSeqB (a :: b :: l) = true) :
    (b = a ∨ b = a + 1) ∧ stepSeqB (b :: l) = true := by
  simp only [stepSeqB, Bool.and_eq_true, Bool.or_eq_true, beq_iff_eq] at h
  exact ⟨h.1, h.2⟩

lemma stepSeqB_le (l : List Nat) : ∀ (a : Nat), stepSeqB (a :: l) = true → ∀ m ∈ l, a ≤ m := by
  induction l with
  | nil => intro a _ m hm; cases hm
  | cons b t ih =>
      intro a h m hm
      obtain ⟨hab, ht⟩ := stepSeqB_cons a b t h
      rcases List.mem_cons.mp hm with rfl | hm2
      · omega
      · have := ih b ht m hm2
        omega

lemma fireBool_iff (u : Nat) :
    (((secondOf u == 0) && (minuteOf u % 5 == 0)) = true) ↔ u % 300 = 0 := by
  simp only [secondOf, minuteOf, Bool.and_eq_true, beq_iff_eq]
  omega

lemma mod300_fire (u : Nat) (h : u % 300 = 0) : secondOf u = 0 ∧ minuteOf u % 5 = 0 := by
  unfold secondOf minuteOf
  omega

lemma schedRun_cons (s : SchedState) (u : Nat) (us : List Nat) :
    schedRun s (u :: us) =
      (if (schedStep s u).1 then u :: (schedRun (schedStep s u).2 us).1
       else (schedRun (schedStep s u).2 us).1, (schedRun (schedStep s u).2 us).2) := rfl

lemma schedStep_same (s : SchedState) (u : Nat) (h : toLocal u = s.tLast) :
    schedStep s u = (false, s) := by
  unfold schedStep
  rw [if_neg (by simpa using h)]

lemma schedStep_new (s : SchedState) (u : Nat) (h : toLocal u ≠ s.tLast) :
    schedStep s u =
      (s.first || ((secondOf u == 0) && (minuteOf u % 5 == 0)),
       ⟨if (s.first || ((secondOf u == 0) && (minuteOf u % 5 == 0))) then false else s.first,
        toLocal u⟩) := by
  unfold schedStep
  rw [if_pos h]

lemma schedRun_inv : ∀ (us : List Nat) (fst : Bool) (prev : Nat),
    18000 < prev →
    stepSeqB (prev :: us) = true →
    (∀ u ∈ (schedRun ⟨fst, toLocal prev⟩ us).1, prev < u ∧ u ∈ us) ∧
    (schedRun ⟨fst, toLocal prev⟩ us).1.Pairwise (· < ·) ∧
    (fst = false → ∀ u ∈ (schedRun ⟨fst, toLocal prev⟩ us).1, u % 300 = 0) ∧
    (∀ u ∈ (schedRun ⟨fst, toLocal prev⟩ us).1.tail, u % 300 = 0) ∧
    (∀ u ∈ us, u % 300 = 0 → prev < u → u ∈ (schedRun ⟨fst, toLocal prev⟩ us).1) := by
  intro us
  induction us with
  | nil =>
      intro fst prev _ _
      refine ⟨?_, ?_, ?_, ?_, ?_⟩ <;> simp [schedRun]
  | cons u us ih =>
      intro fst prev hprev hchain
      obtain ⟨hstep, hchain2⟩ := stepSeqB_cons prev u us hchain
      rcases hstep with rfl | rfl
      · -- repeated second: the gate blocks, state unchanged
        have hs := schedStep_same ⟨fst, toLocal u⟩ u rfl
        have hrun : schedRun ⟨fst, toLocal u⟩ (u :: us) =
            ((schedRun ⟨fst, toLocal u⟩ us).1, (schedRun ⟨fst, toLocal u⟩ us).2) := by
          rw [schedRun_cons, hs]
          simp
        obtain ⟨hA, hB, hC, hD, hE⟩ := ih fst u hprev hchain2
        rw [hrun]
        refine ⟨?_, hB, hC, hD, ?_⟩
        · intro x hx
          obtain ⟨h1, h2⟩ := hA x hx
          exact ⟨h1, List.mem_cons_of_mem _ h2⟩
        · intro m hm hm300 hmgt
          rcases List.mem_cons.mp hm with rfl | hm2
          · omega
          · exact hE m hm2 hm300 hmgt
      · -- a new second arrived: the gate passes
        have hne : toLocal (prev + 1) ≠ toLocal prev :=
          toLocal_succ_ne prev (le_of_lt hprev)
        have hs := schedStep_new ⟨fst, toLocal prev⟩ (prev + 1) (by simpa using hne)
        have hprev1 : 18000 < prev + 1 := by omega
        have hmono : ∀ m ∈ us, prev + 1 ≤ m := stepSeqB_le us (prev + 1) hchain2
        cases fst with
        | true =>
            have hfire : (true || ((secondOf (prev + 1) == 0) && (minuteOf (prev + 1) % 5 == 0)))
                = true := by simp
            have hrun : (schedRun ⟨true, toLocal prev⟩ ((prev + 1) :: us)).1 =
                (prev + 1) :: (schedRun ⟨false, toLocal (prev + 1)⟩ us).1 := by
              rw [schedRun_cons, hs]
              simp
            obtain ⟨hA, hB, hC, hD, hE⟩ := ih false (prev + 1) hprev1 hchain2
            rw [hrun]
            have hrest := hC rfl
            refine ⟨?_, ?_, ?_, ?_, ?_⟩
            · intro x hx
              rcases List.mem_cons.mp hx with rfl | hx2
              · exact ⟨by omega, List.mem_cons_self _ _⟩
              · obtain ⟨h1, h2⟩ := hA x hx2
                exact ⟨by omega, List.mem_cons_of_mem _ h2⟩
            · rw [List.pairwise_cons]
              exact ⟨fun x hx => (hA x hx).1, hB⟩
            · intro hcontra
              cases hcontra
            · intro x hx
              exact hrest x hx
            · intro m hm hm300 hmgt
              rcases List.mem_cons.mp hm with rfl | hm2
              · exact List.mem_cons_self _ _
              · rcases Nat.eq_or_lt_of_le (hmono m hm2) with rfl | hlt
                · exact List.mem_cons_self _ _
                · exact List.mem_cons_of_mem _ (hE m hm2 hm300 hlt)
        | false =>
            by_cases hmul : (prev + 1) % 300 = 0
            · have hfb : ((secondOf (prev + 1) == 0) && (minuteOf (prev + 1) % 5 == 0)) = true :=
                (fireBool_iff (prev + 1)).mpr hmul
              have hrun : (schedRun ⟨false, toLocal prev⟩ ((prev + 1) :: us)).1 =
                  (prev + 1) :: (schedRun ⟨false, toLocal (prev + 1)⟩ us).1 := by
                rw [schedRun_cons, hs]
                simp [hfb]
              obtain ⟨hA, hB, hC, hD, hE⟩ := ih false (prev + 1) hprev1 hchain2
              rw [hrun]
              have hrest := hC rfl
              refine ⟨?_, ?_, ?_, ?_, ?_⟩
              · intro x hx
                rcases List.mem_cons.mp hx with rfl | hx2
                · exact ⟨by omega, List.mem_cons_self _ _⟩
                · obtain ⟨h1, h2⟩ := hA x hx2
                  exact ⟨by omega, List.mem_cons_of_mem _ h2⟩
              · rw [List.pairwise_cons]
                exact ⟨fun x hx => (hA x hx).1, hB⟩
              · intro _ x hx
                rcases List.mem_cons.mp hx with rfl | hx2
                · exact hmul
                · exact hrest x hx2
              · intro x hx
                exact hrest x hx
              · intro m hm hm300 hmgt
                rcases List.mem_cons.mp hm with rfl | hm2
                · exact List.mem_cons_self _ _
                · rcases Nat.eq_or_lt_of_le (hmono m hm2) with rfl | hlt
                  · exact List.mem_cons_self _ _
                  · exact List.mem_cons_of_mem _ (hE m hm2 hm300 hlt)
            · have hfb : ((secondOf (prev + 1) == 0) && (minuteOf (prev + 1) % 5 == 0)) = false := by
                rcases Bool.eq_false_or_eq_true
                    ((secondOf (prev + 1) == 0) && (minuteOf (prev + 1) % 5 == 0)) with h | h
                · exact absurd ((fireBool_iff (prev + 1)).mp h) hmul
                · exact h
              have hrun : (schedRun ⟨false, toLocal prev⟩ ((prev + 1) :: us)).1 =
                  (schedRun ⟨false, toLocal (prev + 1)⟩ us).1 := by
                rw [schedRun_cons, hs]
                simp [hfb]
              obtain ⟨hA, hB, hC, hD, hE⟩ := ih false (prev + 1) hprev1 hchain2
              rw [hrun]
              have hall := hC rfl
              refine ⟨?_, hB, ?_, ?_, ?_⟩
              · intro x hx
                obtain ⟨h1, h2⟩ := hA x hx
                exact ⟨by omega, List.mem_cons_of_mem _ h2⟩
              · intro _ x hx
                exact hall x hx
              · intro x hx
                exact hall x (List.mem_of_mem_tail hx)
              · intro m hm hm300 hmgt
                rcases List.mem_cons.mp hm with rfl | hm2
                · exact absurd hm300 hmul
                · rcases Nat.eq_or_lt_of_le (hmono m hm2) with rfl | hlt
                  · exact absurd hm300 hmul
                  · exact hE m hm2 hm300 hlt

lemma pairwise_buckets_all (l : List Nat) (hp : l.Pairwise (· < ·))
    (h3 : ∀ u ∈ l, u % 300 = 0) : l.Pairwise (fun a b => a / 300 ≠ b / 300) := by
  induction l with
  | nil => simp
  | cons a t ih =>
      rw [List.pairwise_cons] at hp ⊢
      refine ⟨?_, ih hp.2 (fun u hu => h3 u (List.mem_cons_of_mem _ hu))⟩
      intro x hx
      have h1 := hp.1 x hx
      have h2 := h3 x (List.mem_cons_of_mem _ hx)
      have h4 := h3 a (List.mem_cons_self _ _)
      omega

lemma pairwise_buckets (l : List Nat) (hp : l.Pairwise (· < ·))
    (ht : ∀ u ∈ l.tail, u % 300 = 0) : l.Pairwise (fun a b => a / 300 ≠ b / 300) := by
  cases l with
  | nil => simp
  | cons a t =>
      rw [List.pairwise_cons] at hp ⊢
      refine ⟨?_, pairwise_buckets_all t hp.2 (fun u hu => ht u (by simpa using hu))⟩
      intro x hx
      have h1 := hp.1 x hx
      have h2 := ht x (by simpa using hx)
      omega

/-- C2: when the scheduling check is driven by successive UTC seconds, each
possibly repeated (the loop may run many times per second), then after the
first fire every fire lands on second 0 of a minute divisible by 5, no two
fires share a 5-minute bucket, and every bucket boundary that is fed
produces its fire - exactly once per bucket. -/
theorem sched_once_per_bucket (us : List Nat) (hchain : stepSeqB us = true)
    (hpos : ∀ u ∈ us, 18000 < u) :
    (∀ u ∈ (schedRun schedInit us).1.tail, secondOf u = 0 ∧ minuteOf u % 5 = 0) ∧
    (schedRun schedInit us).1.Pairwise (fun a b => a / 300 ≠ b / 300) ∧
    (∀ u ∈ us, u % 300 = 0 → u ∈ (schedRun schedInit us).1) := by
  cases us with
  | nil => refine ⟨?_, ?_, ?_⟩ <;> simp [schedRun]
  | cons u0 rest =>
      have h0 : 18000 < u0 := hpos u0 (List.mem_cons_self _ _)
      have hne0 : toLocal u0 ≠ 0 := toLocal_pos u0 h0
      have hchain2 : stepSeqB (u0 :: rest) = true := hchain
      have hs : schedStep schedInit u0 =
          (true, ⟨false, toLocal u0⟩) := by
        unfold schedStep schedInit
        rw [if_pos (by simpa using hne0)]
        simp
      have hrun : (schedRun schedInit (u0 :: rest)).1 =
          u0 :: (schedRun ⟨false, toLocal u0⟩ rest).1 := by
        rw [schedRun_cons, hs]
        simp
      obtain ⟨hA, hB, hC, hD, hE⟩ := schedRun_inv rest false u0 h0 hchain2
      have hall := hC rfl
      have hmono : ∀ m ∈ rest, u0 ≤ m := stepSeqB_le rest u0 hchain2
      rw [hrun]
      refine ⟨?_, ?_, ?_⟩
      · intro u hu
        exact mod300_fire u (hall u hu)
      · apply pairwise_buckets
        · rw [List.pairwise_cons]
          exact ⟨fun x hx => (hA x hx).1, hB⟩
        · intro u hu
          exact hall u (by simpa using hu)
      · intro m hm hm300
        rcases List.mem_cons.mp hm with rfl | hm2
        · exact List.mem_cons_self _ _
        · rcases Nat.eq_or_lt_of_le (hmono m hm2) with rfl | hlt
          · exact List.mem_cons_self _ _
          · exact List.mem_cons_of_mem _ (hE m hm2 hm300 hlt)

/-- Witness for sched_once_per_bucket: successive seconds across the bucket
boundary 18300 (= 300 * 61), with one second repeated; the checks fire at
18299 (cold start) and at the bucket boundary only. -/
theorem sched_once_per_bucket_witness :
    (∀ u ∈ ((schedRun schedInit [18299, 18300, 18300, 18301]).1).tail,
      secondOf u = 0 ∧ minuteOf u % 5 = 0) ∧
    (schedRun schedInit [18299, 18300, 18300, 18301]).1.Pairwise
      (fun a b => a / 300 ≠ b / 300) ∧
    (∀ u ∈ [18299, 18300, 18300, 18301], u % 300 = 0 →
      u ∈ (schedRun schedInit [18299, 18300, 18300, 18301]).1) :=
  sched_once_per_bucket [18299, 18300, 18300, 18301] (by decide) (by decide)

/- ================= C1: the UTC/local round trip ================= -/

lemma secsInYear_bounds (y : Nat) : 31536000 ≤ secsInYear y ∧ secsInYear y ≤ 31622400 := by
  unfold secsInYear daysInYear
  split <;> norm_num

lemma yearStart_succ (y : Nat) (h : 1970 ≤ y) :
    yearStart (y + 1) = yearStart y + secsInYear y := by
  unfold yearStart
  have h1 : y + 1 - 1970 = (y - 1970) + 1 := by omega
  rw [h1]
  have h2 : 1970 + (y - 1970) = y := by omega
  calc yearStartAux ((y - 1970) + 1) = yearStartAux (y - 1970) + secsInYear (1970 + (y - 1970)) :=
        rfl
  _ = yearStartAux (y - 1970) + secsInYear y := by rw [h2]

lemma yearStartAux_mono (m n : Nat) (h : m ≤ n) : yearStartAux m ≤ yearStartAux n := by
  induction n with
  | zero =>
      have : m = 0 := by omega
      rw [this]
  | succ k ih =>
      rcases Nat.eq_or_lt_of_le h with h1 | h1
      · rw [h1]
      · calc yearStartAux m ≤ yearStartAux k := ih (by omega)
        _ ≤ yearStartAux (k + 1) := by
              show yearStartAux k ≤ yearStartAux k + secsInYear (1970 + k)
              omega

lemma yearStart_mono (a b : Nat) (h : a ≤ b) : yearStart a ≤ yearStart b :=
  yearStartAux_mono _ _ (by omega)

lemma yearOfAux_bracket : ∀ (fuel y s : Nat), s < 31536000 * fuel → 1970 ≤ y →
    1970 ≤ yearOfAux fuel y s ∧
    yearStart (yearOfAux fuel y s) ≤ yearStart y + s ∧
    yearStart y + s < yearStart (yearOfAux fuel y s + 1) := by
  intro fuel
  induction fuel with
  | zero => intro y s h _; omega
  | succ k ih =>
      intro y s h hy
      simp only [yearOfAux]
      split
      case isTrue hlt =>
        refine ⟨hy, Nat.le_add_right _ _, ?_⟩
        rw [yearStart_succ y hy]
        omega
      case isFalse hge =>
        have h31 := secsInYear_bounds y
        have h2 : s - secsInYear y < 31536000 * k := by omega
        obtain ⟨a, b, c⟩ := ih (y + 1) (s - secsInYear y) h2 (by omega)
        have key : yearStart (y + 1) + (s - secsInYear y) = yearStart y + s := by
          rw [yearStart_succ y hy]
          omega
        rw [key] at b c
        exact ⟨by omega, b, c⟩

lemma yearOf_bracket (t : Nat) :
    1970 ≤ yearOf t ∧ yearStart (yearOf t) ≤ t ∧ t < yearStart (yearOf t + 1) := by
  have hfuel : t < 31536000 * ((t + 31536000) / 31536000) := by omega
  have h := yearOfAux_bracket ((t + 31536000) / 31536000) 1970 t hfuel (le_refl _)
  have h0 : yearStart 1970 = 0 := rfl
  unfold yearOf
  rw [h0] at h
  simpa using h

lemma yearOf_unique (t y : Nat) (hy : 1970 ≤ y) (h1 : yearStart y ≤ t)
    (h2 : t < yearStart (y + 1)) : yearOf t = y := by
  obtain ⟨hy', hb1, hb2⟩ := yearOf_bracket t
  by_contra hne
  rcases Nat.lt_or_ge (yearOf t) y with hlt | hge
  · have := yearStart_mono (yearOf t + 1) y (by omega)
    omega
  · have : y < yearOf t := by omega
    have := yearStart_mono (y + 1) (yearOf t) (by omega)
    omega

lemma nthDowDay_bounds (y mo wk dw : Nat) (hw : 1 ≤ wk) :
    7 * (wk - 1) + 1 ≤ nthDowDay y mo wk dw ∧ nthDowDay y mo wk dw ≤ 7 * wk := by
  unfold nthDowDay
  have := Nat.mod_lt (dw + 7 - dayOfWeekOf (makeTime y mo 1 0 0 0)) (show 0 < 7 by norm_num)
  omega

lemma dstUTCyr_eq (y : Nat) : dstUTCyr y =
    yearStart y + 86400 * (daysBeforeMonth y 3 + (nthDowDay y 3 2 1 - 1)) + 7200 + 18000 := by
  have h : shiftOf mySTD = 18000 := by decide
  show makeTime y 3 (nthDowDay y 3 2 1) 2 0 0 + shiftOf mySTD = _
  rw [h]
  unfold makeTime
  omega

lemma stdUTCyr_eq (y : Nat) : stdUTCyr y =
    yearStart y + 86400 * (daysBeforeMonth y 11 + (nthDowDay y 11 1 1 - 1)) + 7200 + 14400 := by
  have h : shiftOf myDST = 14400 := by decide
  show makeTime y 11 (nthDowDay y 11 1 1) 2 0 0 + shiftOf myDST = _
  rw [h]
  unfold makeTime
  omega

lemma leapAdj_le (y : Nat) : leapAdj y ≤ 1 := by
  unfold leapAdj
  split <;> norm_num

lemma dst_margin (y : Nat) :
    yearStart y + 5727600 ≤ dstUTCyr y ∧ dstUTCyr y ≤ yearStart y + 6332400 := by
  have heq := dstUTCyr_eq y
  have hb := nthDowDay_bounds y 3 2 1 (by norm_num)
  have hdbm : daysBeforeMonth y 3 = 59 + leapAdj y := rfl
  have hla := leapAdj_le y
  omega

lemma std_margin (y : Nat) :
    yearStart y + 26287200 ≤ stdUTCyr y ∧ stdUTCyr y ≤ yearStart y + 26892000 := by
  have heq := stdUTCyr_eq y
  have hb := nthDowDay_bounds y 11 1 1 (by norm_num)
  have hdbm : daysBeforeMonth y 11 = 304 + leapAdj y := rfl
  have hla := leapAdj_le y
  omega

lemma year_gap (y : Nat) (h : 1970 ≤ y) :
    yearStart y + 31536000 ≤ yearStart (y + 1) := by
  rw [yearStart_succ y h]
  have := secsInYear_bounds y
  omega

lemma utcIsDST_eq_year (u y : Nat) (hy : 1970 ≤ y) (h1 : yearStart y ≤ u)
    (h2 : u < yearStart (y + 1)) :
    utcIsDST u = (decide (dstUTCyr y ≤ u) && decide (u < stdUTCyr y)) := by
  unfold utcIsDST
  rw [yearOf_unique u y hy h1 h2]

lemma utcIsDST_true_of (u y : Nat) (hy : 1970 ≤ y) (h1 : yearStart y ≤ u)
    (h2 : u < yearStart (y + 1)) (h3 : dstUTCyr y ≤ u) (h4 : u < stdUTCyr y) :
    utcIsDST u = true := by
  rw [utcIsDST_eq_year u y hy h1 h2]
  simp [h3, h4]

lemma utcIsDST_false_of (u y : Nat) (hy : 1970 ≤ y) (h1 : yearStart y ≤ u)
    (h2 : u < yearStart (y + 1)) (h3 : u < dstUTCyr y ∨ stdUTCyr y ≤ u) :
    utcIsDST u = false := by
  rw [utcIsDST_eq_year u y hy h1 h2]
  rcases h3 with h | h
  · simp [Nat.not_le.mpr h]
  · simp [Nat.not_lt.mpr h]

lemma toUTC_eval (l : Nat) (b1 b2 : Bool) (h1 : utcIsDST (l + shiftOf myDST) = b1)
    (h2 : utcIsDST (l + shiftOf mySTD) = b2) :
    toUTC l = if b1 && b2 then l + shiftOf myDST else l + shiftOf mySTD := by
  unfold toUTC
  show (if (utcIsDST (l + shiftOf myDST) && !(!utcIsDST (l + shiftOf mySTD))) = true
      then l + shiftOf myDST
      else if ((!utcIsDST (l + shiftOf mySTD)) && !utcIsDST (l + shiftOf myDST)) = true
      then l + shiftOf mySTD else l + shiftOf mySTD) =
    if (b1 && b2) = true then l + shiftOf myDST else l + shiftOf mySTD
  rw [h1, h2]
  cases b1 <;> cases b2 <;> simp

/-- C1: for every Instant t (any post-1970 one: 18000 ≤ t keeps the
westward offsets from under-running the epoch), converting to local time
and back returns t, except when t's local representation falls in the
one-hour ambiguous window at the fall transition, where the conversion
deterministically resolves in favor of the standard rule: the result is the
standard-offset reading of the local time, t + 3600.  The skipped spring
window contains no local representation of any t, so no other exception
arises. -/
theorem tz_toUTC_toLocal (t : Nat) (ht : 18000 ≤ t) :
    (ambiguousUTC t = false → toUTC (toLocal t) = t) ∧
    (ambiguousUTC t = true →
      toUTC (toLocal t) = toLocal t + shiftOf mySTD ∧ toUTC (toLocal t) = t + 3600) := by
  obtain ⟨hy1970, hb1, hb2⟩ := yearOf_bracket t
  have hdm := dst_margin (yearOf t)
  have hsm := std_margin (yearOf t)
  have hgap := year_gap (yearOf t) hy1970
  have hshD : shiftOf myDST = 14400 := by decide
  have hshS : shiftOf mySTD = 18000 := by decide
  have hAmbEq : ambiguousUTC t =
      (decide (stdUTCyr (yearOf t) - 3600 ≤ t) && decide (t < stdUTCyr (yearOf t))) := rfl
  have hself : utcIsDST t =
      (decide (dstUTCyr (yearOf t) ≤ t) && decide (t < stdUTCyr (yearOf t))) := rfl
  by_cases hD : dstUTCyr (yearOf t) ≤ t ∧ t < stdUTCyr (yearOf t)
  · -- daylight time is in force at t
    have hisdst : utcIsDST t = true := by
      rw [hself]
      simp [hD.1, hD.2]
    have hloc : toLocal t = t - 14400 := by
      unfold toLocal
      rw [hisdst, hshD]
      simp
    have hud : toLocal t + shiftOf myDST = t := by
      rw [hloc, hshD]
      omega
    by_cases hW : stdUTCyr (yearOf t) - 3600 ≤ t
    · -- the last daylight hour: the ambiguous window
      have hAmb : ambiguousUTC t = true := by
        rw [hAmbEq]
        simp [hW, hD.2]
      have hus : toLocal t + shiftOf mySTD = t + 3600 := by
        rw [hloc, hshS]
        omega
      have h2 : utcIsDST (t + 3600) = false :=
        utcIsDST_false_of (t + 3600) (yearOf t) hy1970 (by omega) (by omega)
          (Or.inr (by omega))
      have hres : toUTC (toLocal t) = toLocal t + shiftOf mySTD := by
        rw [toUTC_eval (toLocal t) true false (by rw [hud]; exact hisdst)
          (by rw [hus]; exact h2)]
        simp
      refine ⟨fun h => ?_, fun _ => ⟨hres, by rw [hres, hus]⟩⟩
      rw [hAmb] at h
      cases h
    · -- daylight, not in the window: clean round trip
      have hAmb : ambiguousUTC t = false := by
        rw [hAmbEq]
        simp [hW]
      have hus : toLocal t + shiftOf mySTD = t + 3600 := by
        rw [hloc, hshS]
        omega
      have h2 : utcIsDST (t + 3600) = true :=
        utcIsDST_true_of (t + 3600) (yearOf t) hy1970 (by omega) (by omega)
          (by omega) (by omega)
      have hres : toUTC (toLocal t) = toLocal t + shiftOf myDST := by
        rw [toUTC_eval (toLocal t) true true (by rw [hud]; exact hisdst)
          (by rw [hus]; exact h2)]
        simp
      refine ⟨fun _ => by rw [hres, hud], fun h => ?_⟩
      rw [hAmb] at h
      cases h
  · -- standard time is in force at t: always a clean round trip
    have hisdst : utcIsDST t = false := by
      rw [hself]
      rcases Nat.lt_or_ge t (dstUTCyr (yearOf t)) with h | h
      · simp [Nat.not_le.mpr h]
      · have : stdUTCyr (yearOf t) ≤ t := by omega
        simp [Nat.not_lt.mpr this]
    have hloc : toLocal t = t - 18000 := by
      unfold toLocal
      rw [hisdst, hshS]
      simp
    have hus : toLocal t + shiftOf mySTD = t := by
      rw [hloc, hshS]
      omega
    have h2 : utcIsDST (toLocal t + shiftOf mySTD) = false := by
      rw [hus]
      exact hisdst
    have hres : toUTC (toLocal t) = toLocal t + shiftOf mySTD := by
      rw [toUTC_eval (toLocal t) (utcIsDST (toLocal t + shiftOf myDST)) false rfl h2]
      cases utcIsDST (toLocal t + shiftOf myDST) <;> simp
    have hAmb : ambiguousUTC t = false := by
      rw [hAmbEq]
      have : ¬(stdUTCyr (yearOf t) - 3600 ≤ t ∧ t < stdUTCyr (yearOf t)) := by omega
      rcases Nat.lt_or_ge t (stdUTCyr (yearOf t) - 3600) with h | h
      · simp [Nat.not_le.mpr h]
      · have : ¬(t < stdUTCyr (yearOf t)) := by omega
        simp [this]
    refine ⟨fun _ => by rw [hres, hus], fun h => ?_⟩
    rw [hAmb] at h
    cases h

/-- Witness for tz_toUTC_toLocal at the instant 100000000 (1973-03-03
09:46:40 UTC), which lies outside the ambiguous window and round-trips. -/
theorem tz_toUTC_toLocal_witness :
    ambiguousUTC 100000000 = false ∧ toUTC (toLocal 100000000) = 100000000 :=
  ⟨by decide, (tz_toUTC_toLocal 100000000 (by norm_num)).1 (by decide)⟩

end EnvMon4
